import Mathlib

/-!
Verification development for the twocrypto-ng invariant-solving and
state-accounting core.  The Vyper pool and math contracts themselves are not
part of the source tree; only the property-based test harness
(`tests/unitary/pool/stateful/stateful_base.py`,
`tests/unitary/pool/stateful/test_stateful2.py`,
`tests/unitary/math/test_newton_D.py`) and deployment tooling are.
Definitions below are therefore of two kinds:

* translated from the test-harness source (the reference invariant polynomial
  `inv_target_decimal_n2`, the numeric constants, the safe band, the
  test-side ledger bookkeeping); and
* `Modelled from the spec:` definitions reconstructing the missing pool /
  solver behaviour from the natural-language specification, faithful to its
  words.
-/

namespace TwoCrypto

/-! ### Constants

From `tests/unitary/math/test_newton_D.py` (`N_COINS`, `A_MUL`, `MIN_A`,
`MAX_A`, `MIN_GAMMA`, `MAX_GAMMA`, `MIN_XD`, `MAX_XD`) and the 18-decimal /
1e10 fixed-point scales used throughout the spec. -/




def PRECISION : ℕ := 10 ^ 18

def FEE_DENOM : ℕ := 10 ^ 10

def N_COINS : ℕ := 2

def A_MUL : ℕ := 10000

def MIN_A : ℕ := N_COINS ^ N_COINS * A_MUL / 10

def MAX_A : ℕ := N_COINS ^ N_COINS * A_MUL * 100000

def MIN_GAMMA : ℕ := 10 ^ 10

def MAX_GAMMA : ℕ := 5 * 10 ^ 16

def MIN_XD : ℕ := 10 ^ 16 - 1

def MAX_XD : ℕ := 10 ^ 20 + 1

def K0_of (x0 x1 D : ℚ) : ℚ := x0 * x1 / (D / 2) ^ 2 * 10 ^ 18

def inv_target_decimal_n2 (A gamma x0 x1 D : ℚ) : ℚ :=
  let K0 := K0_of x0 x1 D
  let K := A * (gamma ^ 2 * K0 / (gamma + 10 ^ 18 - K0) ^ 2 / 10 ^ 18)
  K * D * (x0 + x1) + x0 * x1 - (K * D ^ 2 + (D / 2) ^ 2)

/-- Modelled from the spec: §4.2 — the `solve_y` equation.  The Vyper solver
is not in `src/`; the spec says it solves "the same invariant rearranged as a
monic quadratic/higher-order form in `y`".  This is that rearrangement: the
invariant of §4.1 with the `K`-denominator `(gamma + 10^18 - K0)^2 * 10^18`
cleared, a polynomial form in `y` once `K0`'s own denominator `(D/2)^2` is
cleared as well. -/
def solve_y_form (A gamma x0 D y : ℚ) : ℚ :=
  A * gamma ^ 2 * K0_of x0 y D * D * (x0 + y - D) +
    (x0 * y - (D / 2) ^ 2) * (gamma + 10 ^ 18 - K0_of x0 y D) ^ 2 * 10 ^ 18

/-- Modelled from the spec: §4.1 — the idealised `solve_D`.  The Newton
solver itself is absent from `src/`; the spec specifies its contract: it
returns the (positive) invariant value `D` of the given balances, i.e. a root
of the invariant residual, with convergence declared at 1 unit / relative
tolerance.  We idealise the tolerance to exact-root. -/
def SolvesD (A gamma x0 x1 D : ℚ) : Prop :=
  0 < D ∧ inv_target_decimal_n2 A gamma x0 x1 D = 0

/-- Modelled from the spec: §4.2 — the idealised `solve_y`: given the kept
balance `x0` and the target `D`, the returned `y` is a (positive) root of the
rearranged invariant form, with the `K`-domain guard `K0 < gamma + 10^18`
(§4.1: `K` is "well-defined only while `K0 < gamma + 10^18`"). -/
def SolvesY (A gamma x0 D y : ℚ) : Prop :=
  0 < y ∧ K0_of x0 y D < gamma + 10 ^ 18 ∧ solve_y_form A gamma x0 D y = 0

/-- The 18-decimal-normalised balance-to-`D` ratios lie inside the safe band
`[MIN_XD, MAX_XD]` (rational form of the check in
`tests/unitary/math/test_newton_D.py`). -/
def InBandQ (x D : ℚ) : Prop :=
  (MIN_XD : ℚ) ≤ x * 10 ^ 18 / D ∧ x * 10 ^ 18 / D ≤ (MAX_XD : ℚ)

/-- A pair of per-coin values (coin 0, coin 1). -/
structure Pair where
  c0 : ℕ
  c1 : ℕ
deriving DecidableEq

def Pair.add (p q : Pair) : Pair := ⟨p.c0 + q.c0, p.c1 + q.c1⟩

def Pair.sub (p q : Pair) : Pair := ⟨p.c0 - q.c0, p.c1 - q.c1⟩

def Pair.get (p : Pair) (i : Fin 2) : ℕ := if i = 0 then p.c0 else p.c1

/-- Error kinds, from spec §7. -/
inductive Err where
  | DidNotConverge
  | UnsafeValue
  | SlippageExceeded
  | VirtualPriceDecreased
deriving DecidableEq

/-- Static configuration (spec §6): the admin-fee fraction (out of `10^10`),
the admin-fee claim threshold, and the two coins' decimals. -/
structure Config where
  admin_fee : ℕ
  claim_threshold : ℕ
  dec0 : ℕ
  dec1 : ℕ
deriving DecidableEq

/-- Modelled from the spec: §4.6 says an admin-fee claim converts "a fraction
of the excess profit" into fee shares; §3 requires `xcpx` to be
non-decreasing through the accompanying dip of `xcp_profit`, which forces the
claimed fraction to be at most half of the excess (the deployed pools use
`ADMIN_FEE = 5*10^9` out of `10^10`).  Decimals are at most 18 throughout the
test harness. -/
def Config.Valid (cfg : Config) : Prop :=
  cfg.admin_fee ≤ 5 * 10 ^ 9 ∧ cfg.dec0 ≤ 18 ∧ cfg.dec1 ≤ 18

/-- `PoolState` (spec §3), extended with the collaborator state the test
harness observes: the token-ledger balances actually held by the pool
(`tok`), the fee receiver's token balances (`adminTok`), and the test-side
tracked balances (`ledger`, the `self.balances` bookkeeping of
`StatefulBase`). -/
structure PoolState where
  bal : Pair
  tok : Pair
  ledger : Pair
  adminTok : Pair
  D : ℕ
  price_scale : ℕ
  total_supply : ℕ
  xcp_profit : ℕ
  xcp_profit_a : ℕ
  virtual_price : ℕ
  vp_live : ℕ
  future_A_gamma_time : ℕ
  timestamp : ℕ
  swapped_once : Bool
deriving DecidableEq

/-- The live recomputation `get_virtual_price()` (spec §3: a recomputation
the cached `virtual_price` may trail by a negligible relative error). -/
def get_virtual_price (s : PoolState) : ℕ := s.vp_live

/-- The test harness's profit measure: `xcpx = (xcp_profit + xcp_profit_a +
1e18) // 2`, from `StatefulBase.up_only_profit`. -/
def xcpx (s : PoolState) : ℕ := (s.xcp_profit + s.xcp_profit_a + PRECISION) / 2

/-- `a` and `b` agree within relative error `10^-10` (the test harness bounds
`|log(virtual_price / get_virtual_price)| < 1e-10`). -/
def Close (a b : ℕ) : Prop :=
  a * FEE_DENOM ≤ b * (FEE_DENOM + 1) ∧ b * FEE_DENOM ≤ a * (FEE_DENOM + 1)

instance (a b : ℕ) : Decidable (Close a b) := by
  unfold Close
  exact inferInstance

/-- 18-decimal normalisation of a coin-0 raw balance (`stateful_base.py`
`report_equilibrium`: `xp = balance * 10^(18 - decimals)`; coin 0's price is
identically 1). -/
def normed0 (cfg : Config) (b : ℕ) : ℕ := b * 10 ^ (18 - cfg.dec0)

/-- 18-decimal, price-scaled normalisation of a coin-1 raw balance
(`report_equilibrium`: `yp = balance * price_scale * 10^(18 - decimals)`,
brought back to 18-decimal units). -/
def normed1 (cfg : Config) (b ps : ℕ) : ℕ :=
  b * 10 ^ (18 - cfg.dec1) * ps / PRECISION

/-- The normalised balance-to-`D` ratio `x * 10^18 // D` checked against the
safe band, as in `tests/unitary/math/test_newton_D.py`. -/
def xdRatio (x D : ℕ) : ℕ := x * PRECISION / D

def InBand (x D : ℕ) : Prop := MIN_XD ≤ xdRatio x D ∧ xdRatio x D ≤ MAX_XD

instance (x D : ℕ) : Decidable (InBand x D) := by
  unfold InBand
  exact inferInstance

/-- Oracle record for one solver/price-tweak round: the new cumulative
profit, cached virtual price, live virtual price, invariant and price scale
the (absent) numeric core would produce for the operation. -/
structure Tweak where
  pNew : ℕ
  vpNew : ℕ
  vplNew : ℕ
  DNew : ℕ
  psNew : ℕ
deriving DecidableEq

/-- Modelled from the spec: what §3/§4.5 guarantee about every committed
tweak — `xcp_profit` is non-decreasing outside admin-fee claims, the cached
and live virtual prices stay at least `1e18` and within negligible relative
error of each other, and once a trade has occurred LP value retains at least
half of the nominal profit (`(virtual_price - 1e18) * 2 >= xcp_profit -
1e18`). -/
def TweakOk (s : PoolState) (t : Tweak) : Prop :=
  s.xcp_profit ≤ t.pNew ∧
  PRECISION ≤ t.vpNew ∧
  PRECISION ≤ t.vplNew ∧
  Close t.vpNew t.vplNew ∧
  (s.swapped_once = true → t.pNew + PRECISION ≤ 2 * t.vpNew) ∧
  0 < t.DNew ∧
  0 < t.psNew

instance (s : PoolState) (t : Tweak) : Decidable (TweakOk s t) := by
  unfold TweakOk
  exact inferInstance

def applyTweak (s : PoolState) (t : Tweak) : PoolState :=
  { s with
    xcp_profit := t.pNew
    virtual_price := t.vpNew
    vp_live := t.vplNew
    D := t.DNew
    price_scale := t.psNew }

/-- Modelled from the spec: §4.5 `deposit(amounts, min_shares)` — balances
increase by `amounts`, shares are minted, the trade-style tweak is applied;
fails with `SlippageExceeded` if minted shares are below `min_shares`.  The
token transfer in and the test-side `self.balances` bookkeeping
(`StatefulBase.add_liquidity`) move by the same amounts. -/
def add_liquidity (s : PoolState) (amounts : Pair) (min_shares minted : ℕ)
    (t : Tweak) : Except Err PoolState :=
  if minted < min_shares then .error .SlippageExceeded
  else .ok { applyTweak s t with
    bal := s.bal.add amounts
    tok := s.tok.add amounts
    ledger := s.ledger.add amounts
    total_supply := s.total_supply + minted }

/-- The post-trade raw balance pair: coin `i` receives `dx`, the other coin
pays out `dy` (spec §4.5 `exchange`). -/
def postBal (b : Pair) (i : Fin 2) (dx dy : ℕ) : Pair :=
  if i = 0 then ⟨b.c0 + dx, b.c1 - dy⟩ else ⟨b.c0 - dy, b.c1 + dx⟩

/-- The two normalised post-trade balances used by the safe-band check. -/
def postXp (cfg : Config) (s : PoolState) (i : Fin 2) (dx dy : ℕ) : ℕ × ℕ :=
  (normed0 cfg (postBal s.bal i dx dy).c0,
   normed1 cfg (postBal s.bal i dx dy).c1 s.price_scale)

/-- Modelled from the spec: §4.5 `exchange(amount_in, index_in,
min_amount_out)` — the input balance grows by `dx`, `solve_y` (§4.2) yields
the net output `dy`; the call fails with `UnsafeValue` when a resulting
balance's 18-decimal-normalised fraction of `D` leaves the configured
`[MIN_XD, MAX_XD]` band, with `SlippageExceeded` when the output is below
`min_dy`; on success the tweak commits and the pool has seen a swap. -/
def exchange (cfg : Config) (s : PoolState) (i : Fin 2) (dx min_dy dy : ℕ)
    (t : Tweak) : Except Err PoolState :=
  if ¬ (InBand (postXp cfg s i dx dy).1 s.D ∧ InBand (postXp cfg s i dx dy).2 s.D) then
    .error .UnsafeValue
  else if dy < min_dy then .error .SlippageExceeded
  else .ok { applyTweak s t with
    bal := postBal s.bal i dx dy
    tok := postBal s.tok i dx dy
    ledger := postBal s.ledger i dx dy
    swapped_once := true }

/-- Modelled from the spec: §4.2/§4.5 — solver outputs an `exchange` may
commit.  Beyond `TweakOk`, after the trade the profit bound holds
unconditionally (a swap has now occurred), the payout is covered, and the
post-trade balances still lie on the current invariant `D`: the invariant
interpolates between constant-sum (`D = x + y`) and constant-product
(`(D/2)^2 = x*y`), so its value satisfies `4*x*y <= D^2 <= (x+y)^2` at any
point of the curve (§4.1's initialisation from the geometric mean and the
glossary's description of `D`). -/
def ExchangeOk (cfg : Config) (s : PoolState) (i : Fin 2) (dx dy : ℕ)
    (t : Tweak) : Prop :=
  TweakOk s t ∧
  t.pNew + PRECISION ≤ 2 * t.vpNew ∧
  dy ≤ (if i = 0 then s.bal.c1 else s.bal.c0) ∧
  s.D ≤ (postXp cfg s i dx dy).1 + (postXp cfg s i dx dy).2

instance (cfg : Config) (s : PoolState) (i : Fin 2) (dx dy : ℕ) (t : Tweak) :
    Decidable (ExchangeOk cfg s i dx dy t) := by
  unfold ExchangeOk
  exact inferInstance

/-- The pro-rata amount paid out per coin by a proportional withdrawal
(spec §4.5: each balance decreases by `shares / total_supply` of itself). -/
def propAmount (b shares supply : ℕ) : ℕ := b * shares / supply

def propAmounts (s : PoolState) (shares : ℕ) : Pair :=
  ⟨propAmount s.bal.c0 shares s.total_supply,
   propAmount s.bal.c1 shares s.total_supply⟩

/-- Modelled from the spec: §4.5 `withdraw_proportional(shares, min_amounts)`
— each balance decreases pro rata, supply decreases by `shares`; fails with
`SlippageExceeded` if an output is below its minimum; no invariant
recomputation risk. -/
def remove_liquidity (s : PoolState) (shares : ℕ) (minA : Pair) (t : Tweak) :
    Except Err PoolState :=
  if (propAmounts s shares).c0 < minA.c0 ∨ (propAmounts s shares).c1 < minA.c1 then
    .error .SlippageExceeded
  else .ok { applyTweak s t with
    bal := s.bal.sub (propAmounts s shares)
    tok := s.tok.sub (propAmounts s shares)
    ledger := s.ledger.sub (propAmounts s shares)
    total_supply := s.total_supply - shares }

def RemoveOk (s : PoolState) (shares : ℕ) (t : Tweak) : Prop :=
  TweakOk s t ∧ shares ≤ s.total_supply ∧ 0 < s.total_supply

instance (s : PoolState) (shares : ℕ) (t : Tweak) :
    Decidable (RemoveOk s shares t) := by
  unfold RemoveOk
  exact inferInstance

/-- Sets coordinate `i` of a pair to `p.get i - v`. -/
def Pair.subAt (p : Pair) (i : Fin 2) (v : ℕ) : Pair :=
  if i = 0 then ⟨p.c0 - v, p.c1⟩ else ⟨p.c0, p.c1 - v⟩

/-- Oracle for a single-sided withdrawal: the token amount paid out and the
solver/tweak outputs of the reduced-`D` solve. -/
structure OneCoinOracle where
  out : ℕ
  tw : Tweak
deriving DecidableEq

/-- Modelled from the spec: §4.5 `withdraw_single(shares, output_index,
min_amount)` — solves for the single-coin reduction, then, before
finalising, compares the resulting virtual price `o.tw.vpNew` to the cached
one and fails with `VirtualPriceDecreased` if the per-share value would
drop; fails with `SlippageExceeded` below `min_amount`; otherwise commits
(burning `shares`, paying `o.out` of coin `idx`). -/
def remove_liquidity_one_coin (s : PoolState) (shares : ℕ) (idx : Fin 2)
    (min_amount : ℕ) (o : OneCoinOracle) : Except Err PoolState :=
  if o.tw.vpNew < s.virtual_price then .error .VirtualPriceDecreased
  else if o.out < min_amount then .error .SlippageExceeded
  else .ok { applyTweak s o.tw with
    bal := s.bal.subAt idx o.out
    tok := s.tok.subAt idx o.out
    ledger := s.ledger.subAt idx o.out
    total_supply := s.total_supply - shares }

def OneCoinOk (s : PoolState) (shares : ℕ) (idx : Fin 2) (o : OneCoinOracle) : Prop :=
  TweakOk s o.tw ∧ shares ≤ s.total_supply ∧ o.out ≤ s.bal.get idx

instance (s : PoolState) (shares : ℕ) (idx : Fin 2) (o : OneCoinOracle) :
    Decidable (OneCoinOk s shares idx o) := by
  unfold OneCoinOk
  exact inferInstance

/-- The profit skimmed by an admin-fee claim: half of `admin_fee / 10^10` of
the excess of `xcp_profit` over the `xcp_profit_a` high-water mark (the
other half of the fraction stays with the LPs through the accompanying
`xcp_profit` dip of twice this amount). -/
def claimFees (cfg : Config) (p a : ℕ) : ℕ :=
  (p - a) * cfg.admin_fee / (2 * FEE_DENOM)

/-- Oracle for an admin-fee claim: the token amounts handed to the fee
receiver and the recomputed virtual prices. -/
structure ClaimOracle where
  outPair : Pair
  vpNew : ℕ
  vplNew : ℕ
deriving DecidableEq

/-- Modelled from the spec: §4.6 admin-fee claim — a fraction of the excess
profit is converted into value for the fee recipient, `xcp_profit` dips by
twice the skimmed fraction of the excess, and `xcp_profit_a` is advanced to
the current (post-dip) `xcp_profit`.  The fee receiver's token balances grow
by the claimed amounts, which leave the pool and its ledgers
(`StatefulBase.remove_liquidity_one_coin`, lines 444-472). -/
def claim_admin_fees (cfg : Config) (s : PoolState) (o : ClaimOracle) : PoolState :=
  let fees := claimFees cfg s.xcp_profit s.xcp_profit_a
  { s with
    xcp_profit := s.xcp_profit - 2 * fees
    xcp_profit_a := s.xcp_profit - 2 * fees
    bal := s.bal.sub o.outPair
    tok := s.tok.sub o.outPair
    ledger := s.ledger.sub o.outPair
    adminTok := s.adminTok.add o.outPair
    virtual_price := o.vpNew
    vp_live := o.vplNew }

/-- Modelled from the spec and the test harness: a claim only fires when the
excess profit exceeds the configured threshold (§4.6), never while an
`A`/`gamma` ramp is active (`StatefulBase` line 469: "claim admin fees while
ramping" must not happen), pays a positive amount of every coin unless that
coin's precision is 4 decimals or fewer (lines 464-468), and keeps the §3
virtual-price invariants. -/
def ClaimOk (cfg : Config) (s : PoolState) (o : ClaimOracle) : Prop :=
  s.future_A_gamma_time ≤ s.timestamp ∧
  s.xcp_profit_a + cfg.claim_threshold < s.xcp_profit ∧
  (0 < o.outPair.c0 ∨ cfg.dec0 ≤ 4) ∧
  (0 < o.outPair.c1 ∨ cfg.dec1 ≤ 4) ∧
  o.outPair.c0 ≤ s.bal.c0 ∧
  o.outPair.c1 ≤ s.bal.c1 ∧
  PRECISION ≤ o.vplNew ∧
  Close o.vpNew o.vplNew ∧
  s.xcp_profit - 2 * claimFees cfg s.xcp_profit s.xcp_profit_a + PRECISION ≤
    2 * o.vpNew

instance (cfg : Config) (s : PoolState) (o : ClaimOracle) :
    Decidable (ClaimOk cfg s o) := by
  unfold ClaimOk
  exact inferInstance

/-- `boa.env.time_travel`: the external clock moves forward. -/
def timeTravel (s : PoolState) (dt : ℕ) : PoolState :=
  { s with timestamp := s.timestamp + dt }

/-- Modelled from the spec: §4.4 — starting a parameter ramp schedules
`future_A_gamma_time` in the future (the ramp-start operation itself is
outside the core, §5; only its effect on the ramp clock matters here). -/
def startRamp (s : PoolState) (tEnd : ℕ) : PoolState :=
  { s with future_A_gamma_time := tEnd }

/-- One observable transition of the pool: a successful state-changing
operation (failed calls revert the whole operation, spec §5/§7, so they do
not move the state), a clock step, or a ramp start. -/
inductive Step (cfg : Config) : PoolState → PoolState → Prop where
  | deposit {s s' : PoolState} {amounts : Pair} {min_shares minted : ℕ} {t : Tweak}
      (hok : TweakOk s t)
      (h : add_liquidity s amounts min_shares minted t = .ok s') :
      Step cfg s s'
  | swap {s s' : PoolState} {i : Fin 2} {dx min_dy dy : ℕ} {t : Tweak}
      (hok : ExchangeOk cfg s i dx dy t)
      (h : exchange cfg s i dx min_dy dy t = .ok s') :
      Step cfg s s'
  | withdraw {s s' : PoolState} {shares : ℕ} {minA : Pair} {t : Tweak}
      (hok : RemoveOk s shares t)
      (h : remove_liquidity s shares minA t = .ok s') :
      Step cfg s s'
  | withdraw_one {s s' : PoolState} {shares : ℕ} {idx : Fin 2} {min_amount : ℕ}
      {o : OneCoinOracle}
      (hok : OneCoinOk s shares idx o)
      (h : remove_liquidity_one_coin s shares idx min_amount o = .ok s') :
      Step cfg s s'
  | claim {s : PoolState} {o : ClaimOracle}
      (hok : ClaimOk cfg s o) :
      Step cfg s (claim_admin_fees cfg s o)
  | travel {s : PoolState} (dt : ℕ) :
      Step cfg s (timeTravel s dt)
  | ramp {s : PoolState} (tEnd : ℕ) :
      Step cfg s (startRamp s tEnd)

/-- Spec §3 lifecycle: the state the first deposit seeds — profit markers and
virtual prices at `1e18`, no swap seen yet, ledgers in agreement. -/
def InitState (s : PoolState) : Prop :=
  s.xcp_profit = PRECISION ∧
  s.xcp_profit_a = PRECISION ∧
  s.virtual_price = PRECISION ∧
  s.vp_live = PRECISION ∧
  s.swapped_once = false ∧
  s.ledger = s.bal ∧
  s.tok = s.bal

instance (s : PoolState) : Decidable (InitState s) := by
  unfold InitState
  exact inferInstance

/-- A state reachable from a seeded pool by finitely many operations. -/
def Reachable (cfg : Config) (s0 s : PoolState) : Prop :=
  InitState s0 ∧ Relation.ReflTransGen (Step cfg) s0 s

/-- Discard a failed call's result: spec §5 — an operation's failure causes
the entire state mutation to be discarded as a unit. -/
def commit (s : PoolState) : Except Err PoolState → PoolState
  | .error _ => s
  | .ok s' => s'

/-- The conjunction of §3 state invariants maintained by every operation:
profit markers at least `1e18` with `xcp_profit_a` never above `xcp_profit`,
both virtual prices at least `1e18` and close to each other, the
profit-retention bound once a swap occurred, and the three balance ledgers in
agreement. -/
def Inv (s : PoolState) : Prop :=
  PRECISION ≤ s.xcp_profit_a ∧
  s.xcp_profit_a ≤ s.xcp_profit ∧
  PRECISION ≤ s.virtual_price ∧
  PRECISION ≤ s.vp_live ∧
  Close s.virtual_price s.vp_live ∧
  (s.swapped_once = true → s.xcp_profit + PRECISION ≤ 2 * s.virtual_price) ∧
  s.ledger = s.bal ∧
  s.tok = s.bal

instance (s : PoolState) : Decidable (Inv s) := by
  unfold Inv
  exact inferInstance

/-- One proportional withdrawal of `d` shares applied to the pool's balances
and supply — exactly the balance/supply effect of `remove_liquidity`. -/
def drainStep (bs : Pair × ℕ) (d : ℕ) : Pair × ℕ :=
  (⟨bs.1.c0 - propAmount bs.1.c0 d bs.2, bs.1.c1 - propAmount bs.1.c1 d bs.2⟩,
   bs.2 - d)

/-- A sequence of proportional withdrawals, one per depositor. -/
def drainAll (bs : Pair × ℕ) (ds : List ℕ) : Pair × ℕ := ds.foldl drainStep bs

/-- Scalar version of `drainAll` on a single coin balance. -/
def drainCoin : ℕ → ℕ → List ℕ → ℕ
  | b, _, [] => b
  | b, S, d :: ds => drainCoin (b - propAmount b d S) (S - d) ds

def xp0S (cfg : Config) (s : PoolState) : ℕ := normed0 cfg s.bal.c0

def xp1S (cfg : Config) (s : PoolState) : ℕ :=
  normed1 cfg s.bal.c1 s.price_scale

/-- Modelled from the spec: §4.1 and the glossary — the invariant
interpolates between the constant-product curve (where `(D/2)^2 = x*y`) and
the constant-sum curve (where `D = x + y`), so on any state whose balances
and cached `D` lie on the curve, `4*x*y <= D^2` and `D <= x + y` in
normalised units; `10^6 <= D` records that a live pool's invariant (in
18-decimal units) is far above rounding dust (the harness seeds at least
`1e20`). -/
def OnCurve (cfg : Config) (s : PoolState) : Prop :=
  4 * xp0S cfg s * xp1S cfg s ≤ s.D ^ 2 ∧
  s.D ≤ xp0S cfg s + xp1S cfg s ∧
  10 ^ 6 ≤ s.D

instance (cfg : Config) (s : PoolState) : Decidable (OnCurve cfg s) := by
  unfold OnCurve
  exact inferInstance

instance (cfg : Config) : Decidable cfg.Valid := by
  unfold Config.Valid
  exact inferInstance

/-- A valid configuration: 50% admin fee of `10^10`, zero claim threshold,
two 18-decimal coins. -/
def cfgW : Config := ⟨5 * 10 ^ 9, 0, 18, 18⟩

/-- A freshly seeded balanced pool (`1e24` of each 18-decimal coin at price
scale 1). -/
def s0W : PoolState :=
  { bal := ⟨10 ^ 24, 10 ^ 24⟩
    tok := ⟨10 ^ 24, 10 ^ 24⟩
    ledger := ⟨10 ^ 24, 10 ^ 24⟩
    adminTok := ⟨0, 0⟩
    D := 2 * 10 ^ 24
    price_scale := 10 ^ 18
    total_supply := 2 * 10 ^ 24
    xcp_profit := 10 ^ 18
    xcp_profit_a := 10 ^ 18
    virtual_price := 10 ^ 18
    vp_live := 10 ^ 18
    future_A_gamma_time := 0
    timestamp := 0
    swapped_once := false }

/-- The seeded pool after accruing profit through swaps. -/
def sW : PoolState :=
  { s0W with
    xcp_profit := 2 * 10 ^ 18
    virtual_price := 2 * 10 ^ 18
    vp_live := 2 * 10 ^ 18
    swapped_once := true }

/-- A profit-neutral tweak for operations on the fresh pool. -/
def tW : Tweak := ⟨10 ^ 18, 10 ^ 18, 10 ^ 18, 2 * 10 ^ 24, 10 ^ 18⟩

/-- The fresh pool after a balanced `1e22` swap of coin 0 for coin 1. -/
def s1W : PoolState :=
  { s0W with
    bal := ⟨10 ^ 24 + 10 ^ 22, 10 ^ 24 - 10 ^ 22⟩
    tok := ⟨10 ^ 24 + 10 ^ 22, 10 ^ 24 - 10 ^ 22⟩
    ledger := ⟨10 ^ 24 + 10 ^ 22, 10 ^ 24 - 10 ^ 22⟩
    swapped_once := true }

/-- An admin-fee claim oracle for `sW`. -/
def claimW : ClaimOracle := ⟨⟨10 ^ 20, 10 ^ 20⟩, 15 * 10 ^ 17, 15 * 10 ^ 17⟩

/-- A single-coin withdrawal oracle for `s0W` that keeps the virtual price. -/
def ocW : OneCoinOracle := ⟨10 ^ 20, tW⟩

/-- A single-coin withdrawal oracle for `sW` whose resulting virtual price
(`1.5e18`) is below the cached one (`2e18`). -/
def ocLowW : OneCoinOracle :=
  ⟨10 ^ 20, ⟨2 * 10 ^ 18, 15 * 10 ^ 17, 15 * 10 ^ 17, 2 * 10 ^ 24, 10 ^ 18⟩⟩

/-- A heavily imbalanced on-curve pool (coin 0 side is `10^4` times smaller
than coin 1 side). -/
def sUnbW : PoolState :=
  { s0W with
    bal := ⟨10 ^ 22, 2 * 10 ^ 26⟩
    tok := ⟨10 ^ 22, 2 * 10 ^ 26⟩
    ledger := ⟨10 ^ 22, 2 * 10 ^ 26⟩
    D := 10 ^ 26
    total_supply := 10 ^ 26 }

lemma inv_target_eq_div (A gamma x0 D y : ℚ)
    (hden : gamma + 10 ^ 18 - K0_of x0 y D ≠ 0) :
    inv_target_decimal_n2 A gamma x0 y D =
      solve_y_form A gamma x0 D y /
        ((gamma + 10 ^ 18 - K0_of x0 y D) ^ 2 * 10 ^ 18) := by
  unfold inv_target_decimal_n2 solve_y_form
  set k := K0_of x0 y D with hkdef
  field_simp
  ring

lemma inv_of_solve_y_form (A gamma x0 D y : ℚ)
    (hden : gamma + 10 ^ 18 - K0_of x0 y D ≠ 0)
    (h : solve_y_form A gamma x0 D y = 0) :
    inv_target_decimal_n2 A gamma x0 y D = 0 := by
  rw [inv_target_eq_div A gamma x0 D y hden, h, zero_div]

/-- C5: for every `(A, gamma, balances)` with all normalised balance-to-`D`
ratios inside the safe band `[MIN_XD, MAX_XD]`, composing `solve_D` with
`solve_y` on one coordinate (the trade replaces coordinate 0 by `xin` and
`solve_y` returns the matching `y`) and then re-solving `D` from the
resulting balances `(xin, y)` reproduces the original invariant value `D`:
`D` is again an exact invariant value of the resulting balances, so the
re-solve residual is `0`, within the stated tolerance of a few parts in
`10^12` of `D`. -/
theorem solve_roundtrip_preserves_D (A gamma x0 x1 D xin y : ℚ)
    (hb0 : InBandQ x0 D) (hb1 : InBandQ x1 D)
    (hb0' : InBandQ xin D) (hb1' : InBandQ y D)
    (hD : SolvesD A gamma x0 x1 D) (hy : SolvesY A gamma xin D y) :
    SolvesD A gamma xin y D ∧ |inv_target_decimal_n2 A gamma xin y D| * 10 ^ 12 ≤ D := by
  obtain ⟨hDpos, -⟩ := hD
  obtain ⟨hypos, hdom, hform⟩ := hy
  have hden : gamma + 10 ^ 18 - K0_of xin y D ≠ 0 :=
    ne_of_gt (sub_pos.mpr hdom)
  have h0 := inv_of_solve_y_form A gamma xin D y hden hform
  refine ⟨⟨hDpos, h0⟩, ?_⟩
  rw [h0]
  simpa using hDpos.le

theorem solve_roundtrip_preserves_D_witness :
    SolvesD 400000 (10 ^ 14) (10 ^ 24) (10 ^ 24) (2 * 10 ^ 24) ∧
    |inv_target_decimal_n2 400000 (10 ^ 14) (10 ^ 24) (10 ^ 24) (2 * 10 ^ 24)| * 10 ^ 12 ≤
      2 * 10 ^ 24 := by
  apply solve_roundtrip_preserves_D 400000 (10 ^ 14) (10 ^ 24) (10 ^ 24)
    (2 * 10 ^ 24) (10 ^ 24) (10 ^ 24)
  · unfold InBandQ MIN_XD MAX_XD
    norm_num
  · unfold InBandQ MIN_XD MAX_XD
    norm_num
  · unfold InBandQ MIN_XD MAX_XD
    norm_num
  · unfold InBandQ MIN_XD MAX_XD
    norm_num
  · constructor
    · norm_num
    · unfold inv_target_decimal_n2 K0_of
      norm_num
  · refine ⟨by norm_num, ?_, ?_⟩
    · unfold K0_of
      norm_num
    · unfold solve_y_form K0_of
      norm_num

/-- A valid admin fee claims at most a quarter of the excess, so the
`xcp_profit` dip of twice the claim is at most the excess over the
high-water mark. -/
lemma claimFees_le (cfg : Config) (hv : cfg.admin_fee ≤ 5 * 10 ^ 9) (p a : ℕ) :
    4 * claimFees cfg p a ≤ p - a := by
  unfold claimFees FEE_DENOM
  have hD : 0 < 2 * (10 : ℕ) ^ 10 := by norm_num
  have h1 : 4 * ((p - a) * cfg.admin_fee / (2 * 10 ^ 10)) ≤
      4 * ((p - a) * cfg.admin_fee) / (2 * 10 ^ 10) := by
    rw [Nat.le_div_iff_mul_le hD]
    calc 4 * ((p - a) * cfg.admin_fee / (2 * 10 ^ 10)) * (2 * 10 ^ 10)
        = 4 * ((p - a) * cfg.admin_fee / (2 * 10 ^ 10) * (2 * 10 ^ 10)) := by ring
      _ ≤ 4 * ((p - a) * cfg.admin_fee) :=
          Nat.mul_le_mul_left _ (Nat.div_mul_le_self _ _)
  have h2 : 4 * ((p - a) * cfg.admin_fee) ≤ (p - a) * (2 * 10 ^ 10) := by
    calc 4 * ((p - a) * cfg.admin_fee) ≤ 4 * ((p - a) * (5 * 10 ^ 9)) :=
          Nat.mul_le_mul_left _ (Nat.mul_le_mul_left _ hv)
      _ = (p - a) * (2 * 10 ^ 10) := by ring
  have h3 : 4 * ((p - a) * cfg.admin_fee) / (2 * 10 ^ 10) ≤
      (p - a) * (2 * 10 ^ 10) / (2 * 10 ^ 10) := Nat.div_le_div_right h2
  have h4 : (p - a) * (2 * 10 ^ 10) / (2 * 10 ^ 10) = p - a :=
    Nat.mul_div_cancel _ hD
  omega

lemma add_liquidity_ok {s s' : PoolState} {amounts : Pair}
    {min_shares minted : ℕ} {t : Tweak}
    (h : add_liquidity s amounts min_shares minted t = .ok s') :
    s' = { applyTweak s t with
      bal := s.bal.add amounts
      tok := s.tok.add amounts
      ledger := s.ledger.add amounts
      total_supply := s.total_supply + minted } := by
  unfold add_liquidity at h
  split at h
  · exact absurd h (by simp)
  · simp only [Except.ok.injEq] at h
    exact h.symm

lemma exchange_ok {cfg : Config} {s s' : PoolState} {i : Fin 2}
    {dx min_dy dy : ℕ} {t : Tweak}
    (h : exchange cfg s i dx min_dy dy t = .ok s') :
    s' = { applyTweak s t with
      bal := postBal s.bal i dx dy
      tok := postBal s.tok i dx dy
      ledger := postBal s.ledger i dx dy
      swapped_once := true } := by
  unfold exchange at h
  split at h
  · exact absurd h (by simp)
  · split at h
    · exact absurd h (by simp)
    · simp only [Except.ok.injEq] at h
      exact h.symm

lemma remove_liquidity_ok {s s' : PoolState} {shares : ℕ} {minA : Pair}
    {t : Tweak}
    (h : remove_liquidity s shares minA t = .ok s') :
    s' = { applyTweak s t with
      bal := s.bal.sub (propAmounts s shares)
      tok := s.tok.sub (propAmounts s shares)
      ledger := s.ledger.sub (propAmounts s shares)
      total_supply := s.total_supply - shares } := by
  unfold remove_liquidity at h
  split at h
  · exact absurd h (by simp)
  · simp only [Except.ok.injEq] at h
    exact h.symm

lemma remove_one_ok {s s' : PoolState} {shares : ℕ} {idx : Fin 2}
    {min_amount : ℕ} {o : OneCoinOracle}
    (h : remove_liquidity_one_coin s shares idx min_amount o = .ok s') :
    s.virtual_price ≤ o.tw.vpNew ∧
    s' = { applyTweak s o.tw with
      bal := s.bal.subAt idx o.out
      tok := s.tok.subAt idx o.out
      ledger := s.ledger.subAt idx o.out
      total_supply := s.total_supply - shares } := by
  unfold remove_liquidity_one_coin at h
  split at h
  · exact absurd h (by simp)
  · split at h
    · exact absurd h (by simp)
    · simp only [Except.ok.injEq] at h
      constructor
      · omega
      · exact h.symm

lemma inv_step {cfg : Config} {s s' : PoolState} (hv : cfg.Valid)
    (hstep : Step cfg s s') (hinv : Inv s) : Inv s' := by
  obtain ⟨hv1, hv2, hv3⟩ := hv
  obtain ⟨h1, h2, h3, h4, h5, h6, h7, h8⟩ := hinv
  cases hstep with
  | deposit hok h =>
    obtain ⟨k1, k2, k3, k4, k5, k6, k7⟩ := hok
    have hs' := add_liquidity_ok h
    subst hs'
    refine ⟨h1, le_trans h2 k1, k2, k3, k4, ?_, by simp only [h7], by simp only [h8]⟩
    intro hsw
    exact k5 hsw
  | swap hok h =>
    obtain ⟨⟨k1, k2, k3, k4, k5, k6, k7⟩, kvp, kdy, ksum⟩ := hok
    have hs' := exchange_ok h
    subst hs'
    exact ⟨h1, le_trans h2 k1, k2, k3, k4, fun _ => kvp, by simp only [h7],
      by simp only [h8]⟩
  | withdraw hok h =>
    obtain ⟨⟨k1, k2, k3, k4, k5, k6, k7⟩, ksh, ksup⟩ := hok
    have hs' := remove_liquidity_ok h
    subst hs'
    refine ⟨h1, le_trans h2 k1, k2, k3, k4, ?_, by simp only [h7], by simp only [h8]⟩
    intro hsw
    exact k5 hsw
  | withdraw_one hok h =>
    obtain ⟨⟨k1, k2, k3, k4, k5, k6, k7⟩, ksh, kout⟩ := hok
    obtain ⟨hvp, hs'⟩ := remove_one_ok h
    subst hs'
    refine ⟨h1, le_trans h2 k1, k2, k3, k4, ?_, by simp only [h7], by simp only [h8]⟩
    intro hsw
    exact k5 hsw
  | claim hok =>
    rename_i o
    obtain ⟨k1, k2, k3, k4, k5, k6, k7, k8, k9⟩ := hok
    have hfee := claimFees_le cfg hv1 s.xcp_profit s.xcp_profit_a
    refine ⟨?_, le_refl _, ?_, k7, k8, fun _ => k9, ?_, ?_⟩
    · show PRECISION ≤ s.xcp_profit - 2 * claimFees cfg s.xcp_profit s.xcp_profit_a
      omega
    · show PRECISION ≤ o.vpNew
      omega
    · show Pair.sub s.ledger o.outPair = Pair.sub s.bal o.outPair
      rw [h7]
    · show Pair.sub s.tok o.outPair = Pair.sub s.bal o.outPair
      rw [h8]
  | travel dt =>
    exact ⟨h1, h2, h3, h4, h5, h6, h7, h8⟩
  | ramp tEnd =>
    exact ⟨h1, h2, h3, h4, h5, h6, h7, h8⟩

lemma inv_init {s : PoolState} (h : InitState s) : Inv s := by
  obtain ⟨h1, h2, h3, h4, h5, h6, h7⟩ := h
  refine ⟨h2.ge, by rw [h1, h2], h3.ge, h4.ge, ?_, ?_, h6, h7⟩
  · rw [h3, h4]
    exact ⟨Nat.mul_le_mul_left _ (by norm_num), Nat.mul_le_mul_left _ (by norm_num)⟩
  · intro hsw
    rw [h5] at hsw
    exact absurd hsw (by simp)

lemma inv_reachable {cfg : Config} {s0 s : PoolState} (hv : cfg.Valid)
    (h : Reachable cfg s0 s) : Inv s := by
  obtain ⟨h0, hrt⟩ := h
  induction hrt with
  | refl => exact inv_init h0
  | tail _ hstep ih => exact inv_step hv hstep ih

lemma xcpx_mono {s s' : PoolState} (hp : s.xcp_profit ≤ s'.xcp_profit)
    (ha : s.xcp_profit_a = s'.xcp_profit_a) : xcpx s ≤ xcpx s' := by
  unfold xcpx
  exact Nat.div_le_div_right (by omega)

lemma band_low {x D : ℕ} (hD : 0 < D) (h : xdRatio x D < MIN_XD) :
    100 * x < D := by
  unfold xdRatio MIN_XD at h
  have h' : x * PRECISION < (10 ^ 16 - 1) * D := (Nat.div_lt_iff_lt_mul hD).mp h
  unfold PRECISION at h'
  omega

lemma band_high {x D : ℕ} (hD : 0 < D) (h : MAX_XD < xdRatio x D) :
    100 * D ≤ x := by
  unfold xdRatio MAX_XD at h
  have h' : (10 ^ 20 + 2) * D ≤ x * PRECISION :=
    (Nat.le_div_iff_mul_le hD).mp h
  unfold PRECISION at h'
  omega

lemma not_inBand {x D : ℕ} (h : ¬ InBand x D) :
    xdRatio x D < MIN_XD ∨ MAX_XD < xdRatio x D := by
  unfold InBand at h
  omega

/-- Scaling under floor division: `c * (a / b) ≤ c * a / b`. -/
lemma mul_div_le_div (c a b : ℕ) : c * (a / b) ≤ c * a / b := by
  rcases Nat.eq_zero_or_pos b with hb | hb
  · subst hb
    simp
  · rw [Nat.le_div_iff_mul_le hb]
    calc c * (a / b) * b = c * (a / b * b) := by ring
      _ ≤ c * a := Nat.mul_le_mul_left _ (Nat.div_mul_le_self _ _)

/-- Floor-division slop when pulling a factor out: `c * a / b ≤ c * (a / b) +
(c - 1)` for positive `b`. -/
lemma div_mul_le_mul_div_add (c a b : ℕ) (hb : 0 < b) :
    c * a / b ≤ c * (a / b) + (c - 1) := by
  rcases Nat.eq_zero_or_pos c with hc | hc
  · subst hc
    simp
  · have hmod := Nat.div_add_mod a b
    have hmodlt : a % b < b := Nat.mod_lt _ hb
    have hsplit : c * a = b * (c * (a / b)) + c * (a % b) := by
      calc c * a = c * (b * (a / b) + a % b) := by rw [hmod]
        _ = b * (c * (a / b)) + c * (a % b) := by ring
    rw [hsplit, Nat.mul_add_div hb]
    have hlast : c * (a % b) / b ≤ c - 1 := by
      have hlt : c * (a % b) / b < c := by
        rw [Nat.div_lt_iff_lt_mul hb]
        calc c * (a % b) ≤ c * (b - 1) := Nat.mul_le_mul_left _ (by omega)
          _ < c * b := Nat.mul_lt_mul_of_le_of_lt (le_refl c) (by omega) hc
      omega
    omega

lemma normed1_mono (cfg : Config) {a b : ℕ} (ps : ℕ) (h : a ≤ b) :
    normed1 cfg a ps ≤ normed1 cfg b ps :=
  Nat.div_le_div_right (Nat.mul_le_mul_right _ (Nat.mul_le_mul_right _ h))

lemma normed0_add (cfg : Config) (a b : ℕ) :
    normed0 cfg (a + b) = normed0 cfg a + normed0 cfg b := by
  unfold normed0
  ring

lemma normed0_mono (cfg : Config) {a b : ℕ} (h : a ≤ b) :
    normed0 cfg a ≤ normed0 cfg b := Nat.mul_le_mul_right _ h

/-- The 60%-of-liquidity bound on a trade survives coin-1 normalisation, up
to a floor slop of 15: `10 * dx <= 6 * b` gives `10 * n1 (b + dx) <= 16 * n1
b + 15`. -/
lemma normed1_trade_bound (cfg : Config) (b dx ps : ℕ) (h : 10 * dx ≤ 6 * b) :
    10 * normed1 cfg (b + dx) ps ≤ 16 * normed1 cfg b ps + 15 := by
  unfold normed1
  have hP : 0 < PRECISION := by
    unfold PRECISION
    norm_num
  set k := 10 ^ (18 - cfg.dec1) with hk
  have h1 : 10 * ((b + dx) * k * ps / PRECISION) ≤
      10 * ((b + dx) * k * ps) / PRECISION := mul_div_le_div _ _ _
  have h2 : 10 * ((b + dx) * k * ps) ≤ 16 * (b * k * ps) := by
    calc 10 * ((b + dx) * k * ps) = (10 * b + 10 * dx) * (k * ps) := by ring
      _ ≤ (10 * b + 6 * b) * (k * ps) := Nat.mul_le_mul_right _ (by omega)
      _ = 16 * (b * k * ps) := by ring
  have h3 : 10 * ((b + dx) * k * ps) / PRECISION ≤
      16 * (b * k * ps) / PRECISION := Nat.div_le_div_right h2
  have h4 : 16 * (b * k * ps) / PRECISION ≤
      16 * (b * k * ps / PRECISION) + 15 := by
    have := div_mul_le_mul_div_add 16 (b * k * ps) PRECISION hP
    omega
  omega

/-- Same bound for the linear coin-0 normalisation (no slop). -/
lemma normed0_trade_bound (cfg : Config) (b dx : ℕ) (h : 10 * dx ≤ 6 * b) :
    10 * normed0 cfg (b + dx) ≤ 16 * normed0 cfg b := by
  unfold normed0
  calc 10 * ((b + dx) * 10 ^ (18 - cfg.dec0)) =
      (10 * b + 10 * dx) * 10 ^ (18 - cfg.dec0) := by ring
    _ ≤ (10 * b + 6 * b) * 10 ^ (18 - cfg.dec0) := Nat.mul_le_mul_right _ (by omega)
    _ = 16 * (b * 10 ^ (18 - cfg.dec0)) := by ring

lemma xcpx_step {cfg : Config} {s s' : PoolState} (hv : cfg.Valid)
    (hstep : Step cfg s s') : xcpx s ≤ xcpx s' := by
  obtain ⟨hv1, hv2, hv3⟩ := hv
  cases hstep with
  | deposit hok h =>
    have hs' := add_liquidity_ok h
    subst hs'
    exact xcpx_mono hok.1 rfl
  | swap hok h =>
    have hs' := exchange_ok h
    subst hs'
    exact xcpx_mono hok.1.1 rfl
  | withdraw hok h =>
    have hs' := remove_liquidity_ok h
    subst hs'
    exact xcpx_mono hok.1.1 rfl
  | withdraw_one hok h =>
    have hs' := (remove_one_ok h).2
    subst hs'
    exact xcpx_mono hok.1.1 rfl
  | claim hok =>
    rename_i o
    have hfee := claimFees_le cfg hv1 s.xcp_profit s.xcp_profit_a
    have hlt : s.xcp_profit_a < s.xcp_profit := by
      have := hok.2.1
      omega
    unfold xcpx
    apply Nat.div_le_div_right
    show s.xcp_profit + s.xcp_profit_a + PRECISION ≤
      s.xcp_profit - 2 * claimFees cfg s.xcp_profit s.xcp_profit_a +
        (s.xcp_profit - 2 * claimFees cfg s.xcp_profit s.xcp_profit_a) + PRECISION
    omega
  | travel dt =>
    exact le_refl _
  | ramp tEnd =>
    exact le_refl _

lemma drainAll_eq (b0 b1 S : ℕ) (ds : List ℕ) :
    drainAll (⟨b0, b1⟩, S) ds =
      (⟨drainCoin b0 S ds, drainCoin b1 S ds⟩, S - ds.sum) := by
  induction ds generalizing b0 b1 S with
  | nil =>
    simp [drainAll, drainCoin]
  | cons d ds ih =>
    show drainAll (drainStep (⟨b0, b1⟩, S) d) ds = _
    rw [drainStep]
    rw [ih]
    simp [drainCoin, List.sum_cons]
    omega

lemma drainCoin_eq_zero (ds : List ℕ) : ∀ b S : ℕ, ds.sum = S →
    (0 < S ∨ b = 0) → drainCoin b S ds = 0 := by
  induction ds with
  | nil =>
    intro b S hsum hcase
    rcases hcase with hS | hb
    · simp at hsum
      omega
    · simpa [drainCoin] using hb
  | cons d ds ih =>
    intro b S hsum hcase
    rw [List.sum_cons] at hsum
    rcases hcase with hS | hb
    · show drainCoin (b - propAmount b d S) (S - d) ds = 0
      rcases Nat.lt_or_ge d S with hd | hd
      · exact ih _ _ (by omega) (Or.inl (by omega))
      · have hdS : d = S := by omega
        have hz : propAmount b d S = b := by
          rw [hdS]
          unfold propAmount
          exact Nat.mul_div_cancel _ hS
        exact ih _ _ (by omega) (Or.inr (by omega))
    · show drainCoin (b - propAmount b d S) (S - d) ds = 0
      exact ih _ _ (by omega) (Or.inr (by omega))

/-- A proportional withdrawal either strictly reduces the coin balance or
the withdrawn stake is negligible relative to the balance
(`b * d < S`, i.e. the pro-rata amount floors to zero). -/
lemma drain_strict_or_dust (b S d : ℕ) (hS : 0 < S) (hd : d ≤ S) :
    b - propAmount b d S < b ∨ b * d < S := by
  rcases Nat.lt_or_ge (b * d) S with hlt | hge
  · exact Or.inr hlt
  · left
    have h1 : 1 ≤ propAmount b d S := by
      unfold propAmount
      rw [Nat.le_div_iff_mul_le hS]
      omega
    have h2 : propAmount b d S ≤ b := by
      unfold propAmount
      calc b * d / S ≤ b * S / S := Nat.div_le_div_right (Nat.mul_le_mul_left _ hd)
        _ = b := Nat.mul_div_cancel _ hS
    omega

/-- Scalar core of the `UnsafeValue` imbalance analysis.  `X`/`Y` are the
pre-trade normalised input/output-side balances, `x'`/`y'` the post-trade
ones; the trade is at most 60% of the input side (with floor slop 15).  If a
post-trade balance leaves the `[D/100, 100*D]` range implied by the safe
band, the pre-trade pool is imbalanced by a factor of at least `1.53`. -/
lemma imbalance_core (X Y D x' y' : ℕ)
    (hD6 : 1000000 ≤ D)
    (hprod : 4 * X * Y ≤ D ^ 2) (hpresum : D ≤ X + Y)
    (hXle : X ≤ x')
    (hx10 : 10 * x' ≤ 16 * X + 15)
    (hyle : y' ≤ Y)
    (hsum : D ≤ x' + y')
    (hviol : 100 * x' < D ∨ 100 * D ≤ x' ∨ 100 * y' < D ∨ 100 * D ≤ y') :
    153 * Y ≤ 100 * X ∨ 153 * X ≤ 100 * Y := by
  rcases hviol with hv1 | hv2 | hv3 | hv4
  · right
    omega
  · left
    have ha : 999 * D ≤ 16 * X := by omega
    have hsq : (999 * D) * (999 * D) ≤ (16 * X) * (16 * X) :=
      Nat.mul_le_mul ha ha
    have hkey : 3992004 * (X * Y) ≤ 256 * (X * X) := by
      calc 3992004 * (X * Y) = 998001 * (4 * X * Y) := by ring
        _ ≤ 998001 * D ^ 2 := Nat.mul_le_mul_left _ hprod
        _ = (999 * D) * (999 * D) := by ring
        _ ≤ (16 * X) * (16 * X) := hsq
        _ = 256 * (X * X) := by ring
    have hXpos : 0 < X := by omega
    have hfin : 3992004 * Y ≤ 256 * X := by
      have h2 : X * (3992004 * Y) ≤ X * (256 * X) := by
        calc X * (3992004 * Y) = 3992004 * (X * Y) := by ring
          _ ≤ 256 * (X * X) := hkey
          _ = X * (256 * X) := by ring
      exact Nat.le_of_mul_le_mul_left h2 hXpos
    omega
  · left
    have ha : 98999850 * D ≤ 160000000 * X := by omega
    have hsq : (98999850 * D) * (98999850 * D) ≤
        (160000000 * X) * (160000000 * X) := Nat.mul_le_mul ha ha
    have hkey : 39203881200090000 * (X * Y) ≤ 25600000000000000 * (X * X) := by
      calc 39203881200090000 * (X * Y) = 9800970300022500 * (4 * X * Y) := by ring
        _ ≤ 9800970300022500 * D ^ 2 := Nat.mul_le_mul_left _ hprod
        _ = (98999850 * D) * (98999850 * D) := by ring
        _ ≤ (160000000 * X) * (160000000 * X) := hsq
        _ = 25600000000000000 * (X * X) := by ring
    have hXpos : 0 < X := by omega
    have hfin : 39203881200090000 * Y ≤ 25600000000000000 * X := by
      have h2 : X * (39203881200090000 * Y) ≤ X * (25600000000000000 * X) := by
        calc X * (39203881200090000 * Y) = 39203881200090000 * (X * Y) := by ring
          _ ≤ 25600000000000000 * (X * X) := hkey
          _ = X * (25600000000000000 * X) := by ring
      exact Nat.le_of_mul_le_mul_left h2 hXpos
    omega
  · right
    have hY : 100 * D ≤ Y := le_trans hv4 hyle
    have hkey : D * (400 * X) ≤ D * D := by
      calc D * (400 * X) = 4 * X * (100 * D) := by ring
        _ ≤ 4 * X * Y := Nat.mul_le_mul_left _ hY
        _ ≤ D ^ 2 := hprod
        _ = D * D := by ring
    have hDpos : 0 < D := by omega
    have h400 : 400 * X ≤ D := Nat.le_of_mul_le_mul_left hkey hDpos
    omega

lemma fin_two_cases (i : Fin 2) : i = 0 ∨ i = 1 := by
  rcases i with ⟨iv, hlt⟩
  match iv, hlt with
  | 0, _ => exact Or.inl rfl
  | 1, _ => exact Or.inr rfl

/-- Lifting `imbalance_core` to an `exchange` attempt: if the pool is on its
curve, the trade is at most 60% of the input-side liquidity (as the stateful
test driver draws), the post-trade balances still cover the invariant, and
the safe-band check fails, then the pool's two normalised sides differ by a
factor of at least 1.53. -/
lemma exchange_unsafe_imbalance (cfg : Config) (s : PoolState) (i : Fin 2)
    (dx dy : ℕ)
    (hcurve : OnCurve cfg s)
    (hdx : 10 * dx ≤ 6 * (if i = 0 then s.bal.c0 else s.bal.c1))
    (hsum : s.D ≤ (postXp cfg s i dx dy).1 + (postXp cfg s i dx dy).2)
    (hviol : ¬ (InBand (postXp cfg s i dx dy).1 s.D ∧
                InBand (postXp cfg s i dx dy).2 s.D)) :
    153 * xp1S cfg s ≤ 100 * xp0S cfg s ∨
    153 * xp0S cfg s ≤ 100 * xp1S cfg s := by
  obtain ⟨hprod, hpresum, hDmin⟩ := hcurve
  have hD6 : 1000000 ≤ s.D := by
    have hp : (10 : ℕ) ^ 6 = 1000000 := by norm_num
    omega
  have hD0 : 0 < s.D := by omega
  rcases fin_two_cases i with hi | hi
  · subst hi
    have hx' : (postXp cfg s 0 dx dy).1 = normed0 cfg (s.bal.c0 + dx) := by
      simp [postXp, postBal]
    have hy' : (postXp cfg s 0 dx dy).2 =
        normed1 cfg (s.bal.c1 - dy) s.price_scale := by
      simp [postXp, postBal]
    rw [hx', hy'] at hsum hviol
    have hdx0 : 10 * dx ≤ 6 * s.bal.c0 := by simpa using hdx
    apply imbalance_core (xp0S cfg s) (xp1S cfg s) s.D
      (normed0 cfg (s.bal.c0 + dx)) (normed1 cfg (s.bal.c1 - dy) s.price_scale)
      hD6 hprod hpresum ?_ ?_ ?_ hsum ?_
    · exact normed0_mono cfg (Nat.le_add_right _ _)
    · have := normed0_trade_bound cfg s.bal.c0 dx hdx0
      unfold xp0S
      omega
    · exact normed1_mono cfg _ (Nat.sub_le _ _)
    · rcases not_and_or.mp hviol with hA | hB
      · rcases not_inBand hA with hlow | hhigh
        · exact Or.inl (band_low hD0 hlow)
        · exact Or.inr (Or.inl (band_high hD0 hhigh))
      · rcases not_inBand hB with hlow | hhigh
        · exact Or.inr (Or.inr (Or.inl (band_low hD0 hlow)))
        · exact Or.inr (Or.inr (Or.inr (band_high hD0 hhigh)))
  · subst hi
    have hx' : (postXp cfg s 1 dx dy).1 = normed0 cfg (s.bal.c0 - dy) := by
      simp [postXp, postBal]
    have hy' : (postXp cfg s 1 dx dy).2 =
        normed1 cfg (s.bal.c1 + dx) s.price_scale := by
      simp [postXp, postBal]
    rw [hx', hy'] at hsum hviol
    have hdx1 : 10 * dx ≤ 6 * s.bal.c1 := by simpa using hdx
    have hsum' : s.D ≤ normed1 cfg (s.bal.c1 + dx) s.price_scale +
        normed0 cfg (s.bal.c0 - dy) := by omega
    refine Or.symm (imbalance_core (xp1S cfg s) (xp0S cfg s) s.D
      (normed1 cfg (s.bal.c1 + dx) s.price_scale) (normed0 cfg (s.bal.c0 - dy))
      hD6 ?_ ?_ ?_ ?_ ?_ hsum' ?_)
    · calc 4 * xp1S cfg s * xp0S cfg s = 4 * xp0S cfg s * xp1S cfg s := by ring
        _ ≤ s.D ^ 2 := hprod
    · omega
    · exact normed1_mono cfg _ (Nat.le_add_right _ _)
    · have := normed1_trade_bound cfg s.bal.c1 dx s.price_scale hdx1
      unfold xp1S
      omega
    · exact normed0_mono cfg (Nat.sub_le _ _)
    · rcases not_and_or.mp hviol with hA | hB
      · rcases not_inBand hA with hlow | hhigh
        · exact Or.inr (Or.inr (Or.inl (band_low hD0 hlow)))
        · exact Or.inr (Or.inr (Or.inr (band_high hD0 hhigh)))
      · rcases not_inBand hB with hlow | hhigh
        · exact Or.inl (band_low hD0 hlow)
        · exact Or.inr (Or.inl (band_high hD0 hhigh))

lemma postXp_zero (cfg : Config) (s : PoolState) (i : Fin 2) :
    postXp cfg s i 0 0 = (xp0S cfg s, xp1S cfg s) := by
  unfold postXp postBal xp0S xp1S
  rcases fin_two_cases i with hi | hi <;> subst hi <;> simp

/-- C1: along every finite sequence of operations of a validly configured
pool — deposits, exchanges, proportional and single-coin withdrawals,
admin-fee claims, clock steps and ramp starts — the test harness's profit
measure `xcpx = (xcp_profit + xcp_profit_a + 1e18) / 2` never decreases
(`StatefulBase.up_only_profit`). -/
theorem xcpx_up_only {cfg : Config} {s s' : PoolState} (hv : cfg.Valid)
    (h : Relation.ReflTransGen (Step cfg) s s') : xcpx s ≤ xcpx s' := by
  induction h with
  | refl => exact le_refl _
  | tail _ hstep ih => exact ih.trans (xcpx_step hv hstep)

theorem xcpx_up_only_witness :
    xcpx sW ≤ xcpx (claim_admin_fees cfgW sW claimW) :=
  xcpx_up_only (by decide)
    (Relation.ReflTransGen.single (Step.claim (by decide)))

/-- C2: in every reachable state of a validly configured pool, the cached
`virtual_price`, the live recomputation `get_virtual_price()` and
`xcp_profit` are all at least `1e18` (`StatefulBase.sanity_check`). -/
theorem virtual_price_profit_floor {cfg : Config} {s0 s : PoolState}
    (hv : cfg.Valid) (h : Reachable cfg s0 s) :
    PRECISION ≤ s.virtual_price ∧ PRECISION ≤ get_virtual_price s ∧
      PRECISION ≤ s.xcp_profit := by
  obtain ⟨h1, h2, h3, h4, h5, h6, h7, h8⟩ := inv_reachable hv h
  exact ⟨h3, h4, le_trans h1 h2⟩

theorem virtual_price_profit_floor_witness :
    PRECISION ≤ s1W.virtual_price ∧ PRECISION ≤ get_virtual_price s1W ∧
      PRECISION ≤ s1W.xcp_profit :=
  @virtual_price_profit_floor cfgW s0W s1W (by decide)
    ⟨by decide, Relation.ReflTransGen.single
      (@Step.swap cfgW s0W s1W 0 (10 ^ 22) 0 (10 ^ 22) tW (by decide) (by rfl))⟩

/-- C3: in every reachable state of a validly configured pool in which at
least one swap has occurred, `(virtual_price - 1e18) * 2 >= xcp_profit -
1e18`, and the cached virtual price is within relative error `1e-10` of the
live recomputation (`StatefulBase.virtual_price`). -/
theorem profit_retention_after_swap {cfg : Config} {s0 s : PoolState}
    (hv : cfg.Valid) (h : Reachable cfg s0 s) (hsw : s.swapped_once = true) :
    (s.virtual_price - PRECISION) * 2 ≥ s.xcp_profit - PRECISION ∧
      Close s.virtual_price (get_virtual_price s) := by
  obtain ⟨h1, h2, h3, h4, h5, h6, h7, h8⟩ := inv_reachable hv h
  have hb := h6 hsw
  exact ⟨by omega, h5⟩

theorem profit_retention_after_swap_witness :
    (s1W.virtual_price - PRECISION) * 2 ≥ s1W.xcp_profit - PRECISION ∧
      Close s1W.virtual_price (get_virtual_price s1W) :=
  @profit_retention_after_swap cfgW s0W s1W (by decide)
    ⟨by decide, Relation.ReflTransGen.single
      (@Step.swap cfgW s0W s1W 0 (10 ^ 22) 0 (10 ^ 22) tW (by decide) (by rfl))⟩
    (by decide)

/-- C4: in every reachable state of a validly configured pool, for each
coin, the test-tracked ledger balance, the pool's own reported balance and
the token balance actually held by the pool coincide exactly
(`StatefulBase.balances`). -/
theorem ledger_matches_balances {cfg : Config} {s0 s : PoolState}
    (hv : cfg.Valid) (h : Reachable cfg s0 s) (i : Fin 2) :
    s.ledger.get i = s.bal.get i ∧ s.ledger.get i = s.tok.get i := by
  obtain ⟨-, -, -, -, -, -, h7, h8⟩ := inv_reachable hv h
  rw [h7, h8]
  exact ⟨rfl, rfl⟩

theorem ledger_matches_balances_witness :
    s1W.ledger.get 0 = s1W.bal.get 0 ∧ s1W.ledger.get 0 = s1W.tok.get 0 :=
  @ledger_matches_balances cfgW s0W s1W (by decide)
    ⟨by decide, Relation.ReflTransGen.single
      (@Step.swap cfgW s0W s1W 0 (10 ^ 22) 0 (10 ^ 22) tW (by decide) (by rfl))⟩
    0

/-- C6: a `remove_liquidity_one_coin` call with no slippage bound either
fails with `VirtualPriceDecreased` — exactly when the resulting virtual
price would drop below the cached one — leaving the state untouched, or
succeeds with the resulting virtual price at least the cached one. -/
theorem withdraw_single_vp_guard (s : PoolState) (shares : ℕ) (idx : Fin 2)
    (o : OneCoinOracle) (hok : OneCoinOk s shares idx o) :
    (o.tw.vpNew < s.virtual_price →
      remove_liquidity_one_coin s shares idx 0 o = .error .VirtualPriceDecreased ∧
      commit s (remove_liquidity_one_coin s shares idx 0 o) = s) ∧
    (s.virtual_price ≤ o.tw.vpNew →
      ∃ s', remove_liquidity_one_coin s shares idx 0 o = .ok s' ∧
        s.virtual_price ≤ s'.virtual_price) := by
  constructor
  · intro hlt
    have he : remove_liquidity_one_coin s shares idx 0 o =
        .error .VirtualPriceDecreased := by
      unfold remove_liquidity_one_coin
      rw [if_pos hlt]
    refine ⟨he, ?_⟩
    rw [he]
    rfl
  · intro hge
    have he : remove_liquidity_one_coin s shares idx 0 o =
        .ok { applyTweak s o.tw with
          bal := s.bal.subAt idx o.out
          tok := s.tok.subAt idx o.out
          ledger := s.ledger.subAt idx o.out
          total_supply := s.total_supply - shares } := by
      unfold remove_liquidity_one_coin
      rw [if_neg (not_lt.mpr hge), if_neg (by omega)]
    exact ⟨_, he, hge⟩

theorem withdraw_single_vp_guard_witness :
    (remove_liquidity_one_coin sW (10 ^ 20) 0 0 ocLowW =
        .error .VirtualPriceDecreased ∧
      commit sW (remove_liquidity_one_coin sW (10 ^ 20) 0 0 ocLowW) = sW) ∧
    (∃ s', remove_liquidity_one_coin s0W (10 ^ 20) 0 0 ocW = .ok s' ∧
      s0W.virtual_price ≤ s'.virtual_price) :=
  ⟨(withdraw_single_vp_guard sW (10 ^ 20) 0 ocLowW (by decide)).1 (by decide),
   (withdraw_single_vp_guard s0W (10 ^ 20) 0 ocW (by decide)).2 (by decide)⟩

/-- C8: proportional withdrawal always goes through (with zero minimums it
cannot fail), each single proportional withdrawal either strictly reduces a
coin balance or the withdrawn stake is negligible (its pro-rata amount
floors to zero), and a sequence of proportional withdrawals covering all
outstanding shares drains both balances exactly to zero — within any small
residual bound. -/
theorem withdraw_all_drains_pool :
    (∀ (s : PoolState) (shares : ℕ) (t : Tweak), shares ≤ s.total_supply →
      ∃ s', remove_liquidity s shares ⟨0, 0⟩ t = .ok s') ∧
    (∀ (s : PoolState) (shares : ℕ) (t : Tweak) (s' : PoolState),
      remove_liquidity s shares ⟨0, 0⟩ t = .ok s' →
      s'.bal = (drainStep (s.bal, s.total_supply) shares).1 ∧
      s'.total_supply = (drainStep (s.bal, s.total_supply) shares).2) ∧
    (∀ b S d : ℕ, 0 < S → d ≤ S →
      b - propAmount b d S < b ∨ b * d < S) ∧
    (∀ (b0 b1 S : ℕ) (ds : List ℕ), 0 < S → ds.sum = S →
      (drainAll (⟨b0, b1⟩, S) ds).1 = ⟨0, 0⟩ ∧
      (drainAll (⟨b0, b1⟩, S) ds).1.c0 ≤ 10 ^ 7 ∧
      (drainAll (⟨b0, b1⟩, S) ds).1.c1 ≤ 10 ^ 7) := by
  refine ⟨?_, ?_, ?_, ?_⟩
  · intro s shares t hsh
    have he : remove_liquidity s shares ⟨0, 0⟩ t =
        .ok { applyTweak s t with
          bal := s.bal.sub (propAmounts s shares)
          tok := s.tok.sub (propAmounts s shares)
          ledger := s.ledger.sub (propAmounts s shares)
          total_supply := s.total_supply - shares } := by
      unfold remove_liquidity
      rw [if_neg (by simp)]
    exact ⟨_, he⟩
  · intro s shares t s' h
    have hs' := remove_liquidity_ok h
    subst hs'
    exact ⟨rfl, rfl⟩
  · exact drain_strict_or_dust
  · intro b0 b1 S ds hS hsum
    rw [drainAll_eq]
    have h0 := drainCoin_eq_zero ds b0 S hsum (Or.inl hS)
    have h1 := drainCoin_eq_zero ds b1 S hsum (Or.inl hS)
    refine ⟨?_, ?_, ?_⟩
    · simp [h0, h1]
    · simp [h0]
    · simp [h1]

theorem withdraw_all_drains_pool_witness :
    (∃ s', remove_liquidity s0W (2 * 10 ^ 24) ⟨0, 0⟩ tW = .ok s') ∧
    (drainAll (⟨10 ^ 24, 10 ^ 24⟩, 4) [1, 3]).1 = ⟨0, 0⟩ :=
  ⟨(withdraw_all_drains_pool).1 s0W (2 * 10 ^ 24) tW (by decide),
   ((withdraw_all_drains_pool).2.2.2 (10 ^ 24) (10 ^ 24) 4 [1, 3]
      (by decide) (by decide)).1⟩

/-- C10: an admin-fee claim — the only transition that raises the
`xcp_profit_a` high-water mark — never fires while an `A`/`gamma` ramp is
still running, and it strictly increases the fee receiver's holdings of each
coin unless that coin has at most 4 decimals
(`StatefulBase.remove_liquidity_one_coin`, `StatefulBase.is_ramping`). -/
theorem no_claim_while_ramping {cfg : Config} {s s' : PoolState}
    (hstep : Step cfg s s') (hincr : s.xcp_profit_a < s'.xcp_profit_a) :
    s.future_A_gamma_time ≤ s.timestamp ∧
      (s.adminTok.c0 < s'.adminTok.c0 ∨ cfg.dec0 ≤ 4) ∧
      (s.adminTok.c1 < s'.adminTok.c1 ∨ cfg.dec1 ≤ 4) := by
  cases hstep with
  | deposit hok h =>
    have hs' := add_liquidity_ok h
    subst hs'
    exact absurd hincr (lt_irrefl _)
  | swap hok h =>
    have hs' := exchange_ok h
    subst hs'
    exact absurd hincr (lt_irrefl _)
  | withdraw hok h =>
    have hs' := remove_liquidity_ok h
    subst hs'
    exact absurd hincr (lt_irrefl _)
  | withdraw_one hok h =>
    have hs' := (remove_one_ok h).2
    subst hs'
    exact absurd hincr (lt_irrefl _)
  | claim hok =>
    rename_i o
    obtain ⟨k1, k2, k3, k4, k5, k6, k7, k8, k9⟩ := hok
    refine ⟨k1, ?_, ?_⟩
    · rcases k3 with hpos | hdec
      · left
        show s.adminTok.c0 < s.adminTok.c0 + o.outPair.c0
        omega
      · exact Or.inr hdec
    · rcases k4 with hpos | hdec
      · left
        show s.adminTok.c1 < s.adminTok.c1 + o.outPair.c1
        omega
      · exact Or.inr hdec
  | travel dt =>
    exact absurd hincr (lt_irrefl _)
  | ramp tEnd =>
    exact absurd hincr (lt_irrefl _)

theorem no_claim_while_ramping_witness :
    sW.future_A_gamma_time ≤ sW.timestamp ∧
      (sW.adminTok.c0 < (claim_admin_fees cfgW sW claimW).adminTok.c0 ∨
        cfgW.dec0 ≤ 4) ∧
      (sW.adminTok.c1 < (claim_admin_fees cfgW sW claimW).adminTok.c1 ∨
        cfgW.dec1 ≤ 4) :=
  no_claim_while_ramping (Step.claim (by decide)) (by decide)

/-- C7: an `exchange` call fails with `UnsafeValue` exactly when a resulting
normalised balance's fraction of `D` leaves the `[MIN_XD, MAX_XD]` band; any
failing call commits no state change; an `UnsafeValue` failure of a trade of
at most 60% of the input-side liquidity (the sizes the stateful driver
draws) on an on-curve pool happens only when the pool is materially
imbalanced (its two normalised sides differ by a factor of at least 1.53);
and on a pool whose current balances are inside the band, a zero-size trade
is still admissible — the rejection is recoverable by shrinking the trade,
not a pool-wide fault. -/
theorem exchange_unsafe_guard (cfg : Config) (s : PoolState) (i : Fin 2)
    (dx min_dy dy : ℕ) (t : Tweak) :
    (exchange cfg s i dx min_dy dy t = .error .UnsafeValue ↔
      ¬ (InBand (postXp cfg s i dx dy).1 s.D ∧
         InBand (postXp cfg s i dx dy).2 s.D)) ∧
    (∀ e, exchange cfg s i dx min_dy dy t = .error e →
      commit s (exchange cfg s i dx min_dy dy t) = s) ∧
    (OnCurve cfg s → 10 * dx ≤ 6 * (if i = 0 then s.bal.c0 else s.bal.c1) →
      s.D ≤ (postXp cfg s i dx dy).1 + (postXp cfg s i dx dy).2 →
      exchange cfg s i dx min_dy dy t = .error .UnsafeValue →
      153 * xp1S cfg s ≤ 100 * xp0S cfg s ∨
        153 * xp0S cfg s ≤ 100 * xp1S cfg s) ∧
    (InBand (xp0S cfg s) s.D → InBand (xp1S cfg s) s.D →
      ∃ s', exchange cfg s i 0 0 0 t = .ok s') := by
  have hiff : exchange cfg s i dx min_dy dy t = .error .UnsafeValue ↔
      ¬ (InBand (postXp cfg s i dx dy).1 s.D ∧
         InBand (postXp cfg s i dx dy).2 s.D) := by
    constructor
    · intro h
      by_contra hband
      unfold exchange at h
      rw [if_neg (not_not_intro hband)] at h
      split at h
      · simp at h
      · simp at h
    · intro hviol
      unfold exchange
      rw [if_pos hviol]
  refine ⟨hiff, ?_, ?_, ?_⟩
  · intro e h
    rw [h]
    rfl
  · intro hcurve hdx hsum herr
    exact exchange_unsafe_imbalance cfg s i dx dy hcurve hdx hsum (hiff.mp herr)
  · intro hb0 hb1
    have hband : InBand (postXp cfg s i 0 0).1 s.D ∧
        InBand (postXp cfg s i 0 0).2 s.D := by
      rw [postXp_zero]
      exact ⟨hb0, hb1⟩
    have he : exchange cfg s i 0 0 0 t =
        .ok { applyTweak s t with
          bal := postBal s.bal i 0 0
          tok := postBal s.tok i 0 0
          ledger := postBal s.ledger i 0 0
          swapped_once := true } := by
      unfold exchange
      rw [if_neg (not_not_intro hband), if_neg (lt_irrefl 0)]
    exact ⟨_, he⟩

theorem exchange_unsafe_guard_witness :
    (exchange cfgW sUnbW 0 0 0 0 tW = .error .UnsafeValue) ∧
    (commit sUnbW (exchange cfgW sUnbW 0 0 0 0 tW) = sUnbW) ∧
    (153 * xp1S cfgW sUnbW ≤ 100 * xp0S cfgW sUnbW ∨
      153 * xp0S cfgW sUnbW ≤ 100 * xp1S cfgW sUnbW) ∧
    (∃ s', exchange cfgW s0W 0 0 0 0 tW = .ok s') :=
  ⟨by rfl,
   (exchange_unsafe_guard cfgW sUnbW 0 0 0 0 tW).2.1 .UnsafeValue (by rfl),
   (exchange_unsafe_guard cfgW sUnbW 0 0 0 0 tW).2.2.1 (by decide) (by decide)
     (by decide) (by rfl),
   (exchange_unsafe_guard cfgW s0W 0 0 0 0 tW).2.2.2 (by decide) (by decide)⟩

end TwoCrypto
